import Mathlib

/-!
A shallow embedding of Quackle's Monte Carlo simulation engine (`sim.cpp`),
with theorems checking its natural-language specification.

Modelling conventions:
* C++ `double` is modelled as `ℚ` (exact arithmetic stands in for floating point),
  C++ `int` as `ℤ` where it can be negative and as `ℕ` for counts and sizes.
* Mutating member functions become functions from the structure to the structure.
* Operations declared only in headers that are not part of the sources
  (`sim.h`, `move.h`, ...) are modelled from the spec and marked as such in
  their doc comments.
-/

namespace QuackleSim

/-- Running accumulator for a mean / sample standard deviation: value sum `S`,
squared value sum `Q` and count `n` (fields of `AveragedValue` from the header;
`sim.cpp` defines `standardDeviation` and `clear` on it). -/
structure AveragedValue where
  valueSum : ℚ
  squaredValueSum : ℚ
  incorporatedValues : ℕ
  deriving Repr, DecidableEq

instance : Inhabited AveragedValue := ⟨⟨0, 0, 0⟩⟩

/-- Modelled from the spec: `incorporate(x)` adds `x` to `S`, `x²` to `Q` and
increments `n` (declared in the header, not in `src/sim.cpp`). -/
def AveragedValue.incorporateValue (a : AveragedValue) (x : ℚ) : AveragedValue :=
  { valueSum := a.valueSum + x
    squaredValueSum := a.squaredValueSum + x * x
    incorporatedValues := a.incorporatedValues + 1 }

/-- Modelled from the spec: `average()` returns `S/n`, and zero when `n = 0`
(declared in the header, not in `src/sim.cpp`). -/
def AveragedValue.averagedValue (a : AveragedValue) : ℚ :=
  if a.incorporatedValues = 0 then 0 else a.valueSum / a.incorporatedValues

/-- Modelled from the spec: `hasValues()` is true when at least one value has
been incorporated (declared in the header, not in `src/sim.cpp`). -/
def AveragedValue.hasValues (a : AveragedValue) : Bool :=
  a.incorporatedValues != 0

/-- `AveragedValue::clear` (`sim.cpp` lines 545-550): zero all three fields. -/
def AveragedValue.clear : AveragedValue := ⟨0, 0, 0⟩

/-- Incorporate a whole list of values, left to right. -/
def AveragedValue.incorporateList (a : AveragedValue) (l : List ℚ) : AveragedValue :=
  l.foldl AveragedValue.incorporateValue a

/-- `AveragedValue::standardDeviation` (`sim.cpp` lines 536-543):
`0` when `n ≤ 1`, otherwise `sqrt((n·Q − S²) / (n·(n−1)))`.
The C++ `sqrt` on `double` is modelled by `Real.sqrt`, which is why this single
definition is noncomputable; everything the witnesses must evaluate is rational. -/
noncomputable def AveragedValue.standardDeviation (a : AveragedValue) : ℝ :=
  if a.incorporatedValues ≤ 1 then 0
  else Real.sqrt
    (((a.incorporatedValues : ℝ) * (a.squaredValueSum : ℝ)
        - (a.valueSum : ℝ) * (a.valueSum : ℝ))
      / ((a.incorporatedValues : ℝ) * ((a.incorporatedValues : ℝ) - 1)))

/-- Per-ply statistics: a score accumulator and a bingo accumulator
(`PositionStatistics` from the header). -/
structure PositionStatistics where
  score : AveragedValue
  bingos : AveragedValue
  deriving Repr, DecidableEq

instance : Inhabited PositionStatistics := ⟨⟨default, default⟩⟩

/-- One level of the lookahead: one `PositionStatistics` per player slot acting
at this level (`Level` from the header). -/
structure Level where
  statistics : List PositionStatistics
  deriving Repr, DecidableEq

instance : Inhabited Level := ⟨⟨[]⟩⟩

/-- `Level::setNumberScores` (`sim.cpp` lines 615-619): extend (never truncate)
the slot list with default statistics until it has `number` entries. -/
def Level.setNumberScores (lv : Level) (number : ℕ) : Level :=
  { statistics := lv.statistics ++ List.replicate (number - lv.statistics.length) default }

/-- `LevelList::setNumberLevels` (`sim.cpp` lines 584-588): extend (never
truncate) the level list with empty levels until it has `number` entries. -/
def setNumberLevels (levels : List Level) (number : ℕ) : List Level :=
  levels ++ List.replicate (number - levels.length) default

/-- A candidate move.  `key` stands for the identity of the play itself
(action, position, tiles).  Modelled from the spec: move equality
("find-by-equality") compares the play, not the derived valuations `equity`
and `win` (`Move` and its `operator==` live outside `src/sim.cpp`); this is
forced by `pruneTo`, which re-finds moves whose `equity` field it has replaced. -/
structure Move where
  key : ℕ
  score : ℤ
  equity : ℚ
  win : ℚ
  isBingo : Bool
  deriving Repr, DecidableEq, Inhabited

/-- One candidate move plus its accumulated statistics (`SimmedMove` from the
header; `sim.cpp` defines `clear`, `calculateEquity`, `calculateWinPercentage`).
The process-wide unique `id` of the source is omitted here: no verified claim
depends on it, and no theorem below identifies moves through it. -/
structure SimmedMove where
  move : Move
  includeInSimulation : Bool
  levels : List Level
  residual : AveragedValue
  gameSpread : AveragedValue
  wins : AveragedValue
  deriving Repr, DecidableEq

instance : Inhabited SimmedMove :=
  ⟨⟨default, true, [], default, default, default⟩⟩

/-- Modelled from the spec: a freshly constructed `SimmedMove` (the header
constructor) carries the move, starts included ("all initially included"),
and has empty accumulators. -/
def SimmedMove.ofMove (m : Move) : SimmedMove :=
  { move := m
    includeInSimulation := true
    levels := []
    residual := AveragedValue.clear
    gameSpread := AveragedValue.clear
    wins := AveragedValue.clear }

/-- `SimmedMove::clear` (`sim.cpp` lines 590-593).  The source clears only the
`levels` grid; `residual`, `gameSpread` and `wins` are left untouched. -/
def SimmedMove.clear (sm : SimmedMove) : SimmedMove :=
  { sm with levels := [] }

/-- The signed per-level slot sum of `SimmedMove::calculateEquity`
(`sim.cpp` lines 563-572): the slot at the begin iterator is added,
every later slot is subtracted. -/
def scoreSignedSum : Bool → List PositionStatistics → ℚ
  | _, [] => 0
  | isFirst, ps :: rest =>
    (if isFirst then ps.score.averagedValue else -ps.score.averagedValue)
      + scoreSignedSum false rest

/-- `SimmedMove::calculateEquity` (`sim.cpp` lines 554-577): the move's own
static equity when the levels grid is empty; otherwise the signed slot sums of
every level plus the averaged residual. -/
def SimmedMove.calculateEquity (sm : SimmedMove) : ℚ :=
  if sm.levels.isEmpty then sm.move.equity
  else (sm.levels.foldl (fun acc lv => acc + scoreSignedSum true lv.statistics) 0)
    + sm.residual.averagedValue

/-- `SimmedMove::calculateWinPercentage` (`sim.cpp` lines 579-582). -/
def SimmedMove.calculateWinPercentage (sm : SimmedMove) : ℚ :=
  if sm.wins.hasValues then sm.wins.averagedValue * 100 else sm.move.win

/-- The simulator facade state used by the claims below: the simmed move set,
the considered moves and the iteration counter (`Simulator` from the header).
The original game, partial opponent rack, dispatch pointer and log stream are
modelled separately where a claim needs them. -/
structure Simulator where
  simmedMoves : List SimmedMove
  consideredMoves : List Move
  iterations : ℕ
  deriving Repr, DecidableEq

/-- Modelled from the spec: `hasSimulationResults()` is true iff at least one
iteration has run (declared in the header, not in `src/sim.cpp`). -/
def Simulator.hasSimulationResults (sim : Simulator) : Bool :=
  decide (1 ≤ sim.iterations)

/-- `Simulator::resetNumbers` (`sim.cpp` lines 209-215): call `clear` on every
simmed move and reset the iteration counter. -/
def Simulator.resetNumbers (sim : Simulator) : Simulator :=
  { sim with
    simmedMoves := sim.simmedMoves.map SimmedMove.clear
    iterations := 0 }

/-- The inner search of `Simulator::setIncludedMoves` (`sim.cpp` lines 139-150):
walk the simmed moves, mark the first one whose move equals `m` as included and
stop; report whether a match was found. -/
def markFirstInclude (m : Move) : List SimmedMove → List SimmedMove × Bool
  | [] => ([], false)
  | sm :: rest =>
    if m.key = sm.move.key then ({ sm with includeInSimulation := true } :: rest, true)
    else
      let r := markFirstInclude m rest
      (sm :: r.1, r.2)

/-- The body of the outer loop of `Simulator::setIncludedMoves`
(`sim.cpp` lines 139-154): mark the first match of `m` included, or append a
fresh `SimmedMove` when no match was found. -/
def includeStep (acc : List SimmedMove) (m : Move) : List SimmedMove :=
  let r := markFirstInclude m acc
  if r.2 then r.1 else r.1 ++ [SimmedMove.ofMove m]

/-- `Simulator::setIncludedMoves` (`sim.cpp` lines 134-155): mark every simmed
move excluded, then for each input move mark the first match included, or
append a fresh `SimmedMove` when no match exists. -/
def Simulator.setIncludedMoves (sim : Simulator) (moves : List Move) : Simulator :=
  let allExcluded := sim.simmedMoves.map fun sm => { sm with includeInSimulation := false }
  { sim with simmedMoves := moves.foldl includeStep allExcluded }

/-- The include flag a simmed move ends up with after `setIncludedMoves sel`:
included exactly when some selected move equals its move. -/
def reInclude (sel : List Move) (sm : SimmedMove) : SimmedMove :=
  { sm with includeInSimulation := sel.any fun m => m.key == sm.move.key }

/-- Mark every simmed move whose move has key `k` as included. -/
def markKeyIncluded (k : ℕ) (l : List SimmedMove) : List SimmedMove :=
  l.map fun sm => if sm.move.key = k then { sm with includeInSimulation := true } else sm

/-- An input move with no match among the simmed moves (it will be appended
as a fresh `SimmedMove` by `setIncludedMoves`). -/
def noMatchIn (old : List SimmedMove) (m : Move) : Bool :=
  !(old.any fun sm => sm.move.key == m.key)

/-- Descending-equity comparison used for `MoveList::sort(_, Equity)`.
Modelled from the spec ("sorted by equity descending"); `MoveList::sort` lives
outside `src/sim.cpp`. -/
def byEquityRel (a b : Move) : Prop := b.equity ≤ a.equity

instance : DecidableRel byEquityRel :=
  fun a b => inferInstanceAs (Decidable (b.equity ≤ a.equity))

instance : IsTotal Move byEquityRel := ⟨fun a b => le_total b.equity a.equity⟩

instance : IsTrans Move byEquityRel := ⟨fun _ _ _ h1 h2 => le_trans h2 h1⟩

/-- Descending-win comparison used for `MoveList::sort(_, Win)`.
Modelled from the spec; `MoveList::sort` lives outside `src/sim.cpp`. -/
def byWinRel (a b : Move) : Prop := b.win ≤ a.win

instance : DecidableRel byWinRel :=
  fun a b => inferInstanceAs (Decidable (b.win ≤ a.win))

/-- The copy of a simmed move's move returned by `Simulator::moves`
(`sim.cpp` lines 492-498): `equity` and `win` are replaced by the derived
statistics exactly when simulation results exist. -/
def SimmedMove.derivedMove (useCalculatedEquity : Bool) (sm : SimmedMove) : Move :=
  if useCalculatedEquity then
    { sm.move with equity := sm.calculateEquity, win := sm.wins.averagedValue }
  else sm.move

/-- `Simulator::moves` (`sim.cpp` lines 481-509): optionally drop non-included
moves, derive equity/win when results exist, and sort by win when requested and
results exist, otherwise by equity. -/
def Simulator.moves (sim : Simulator) (prune byWin : Bool) : List Move :=
  let useCalculatedEquity := sim.hasSimulationResults
  let ret := (sim.simmedMoves.filter fun sm => !(prune && !sm.includeInSimulation)).map
    (SimmedMove.derivedMove useCalculatedEquity)
  if byWin && useCalculatedEquity then List.insertionSort byWinRel ret
  else List.insertionSort byEquityRel ret

/-- The selection loop of `Simulator::pruneTo` (`sim.cpp` lines 198-204): walk
at most `maxNumberOfMoves` entries from the front and keep those whose equity
is at least the absolute threshold. -/
def pruneLoop (absoluteEquityThreshold : ℚ) : ℕ → List Move → List Move
  | 0, _ => []
  | _ + 1, [] => []
  | n + 1, m :: rest =>
    if absoluteEquityThreshold ≤ m.equity then
      m :: pruneLoop absoluteEquityThreshold n rest
    else pruneLoop absoluteEquityThreshold n rest

/-- `Simulator::pruneTo` (`sim.cpp` lines 192-207): take the included moves in
descending equity order, select with `pruneLoop` against the best equity minus
the threshold, and pass the selection to `setIncludedMoves`. -/
def Simulator.pruneTo (sim : Simulator) (equityThreshold : ℚ) (maxNumberOfMoves : ℕ) :
    Simulator :=
  let equityMoves := sim.moves true false
  let absoluteEquityThreshold := equityMoves.headI.equity - equityThreshold
  sim.setIncludedMoves (pruneLoop absoluteEquityThreshold maxNumberOfMoves equityMoves)

/-- Effective lookahead depth of one rollout (`sim.cpp` lines 241-245):
negative requested plies are capped to 1000, then one ply is added for the
candidate play itself.  The result is nonnegative, so the value is a `ℕ`. -/
def effectivePlies (plies : ℤ) : ℕ :=
  ((if plies < 0 then 1000 else plies) + 1).toNat

/-- `decimalTurns` of one rollout (`sim.cpp` line 248): the partial slots of
the final level. -/
def decimalTurnsOf (plies : ℤ) (numberOfPlayers : ℕ) : ℕ :=
  effectivePlies plies % numberOfPlayers

/-- `levels` of one rollout (`sim.cpp` line 251): the number of full levels. -/
def levelsCountOf (plies : ℤ) (numberOfPlayers : ℕ) : ℕ :=
  (effectivePlies plies - decimalTurnsOf plies numberOfPlayers) / numberOfPlayers

/-- The two per-ply flags computed inside the rollout
(`sim.cpp` lines 333-340). -/
structure PlyFlags where
  isFinalTurnForPlayerOfSimulation : Bool
  isVeryFinalTurnOfSimulation : Bool
  deriving Repr, DecidableEq

/-- The per-ply flags exactly as `src/sim.cpp` computes them for the 1-indexed
player slot `slot` of level `levelNumber`.  The source initialises
`playerNumber = 1` and increments it at the top of the slot loop body
(line 295), before the flag computations, so inside the body
`playerNumber = slot + 1`. -/
def plyFlagsCode (levels decimalTurns numberOfPlayers levelNumber slot : ℕ) : PlyFlags :=
  let playerNumber := slot + 1
  { isFinalTurnForPlayerOfSimulation :=
      if levelNumber = levels then decide (decimalTurns < playerNumber)
      else if levelNumber = levels + 1 then decide (playerNumber ≤ decimalTurns)
      else false
    isVeryFinalTurnOfSimulation :=
      (decide (decimalTurns = 0) && decide (levelNumber = levels)
          && decide (playerNumber = numberOfPlayers))
        || (decide (levelNumber = levels + 1) && decide (playerNumber = decimalTurns)) }

/-- The per-ply flags as claim C1 (and the spec) state them, in terms of the
1-indexed player slot `slot` itself. -/
def plyFlagsClaim (levels decimalTurns numberOfPlayers levelNumber slot : ℕ) : PlyFlags :=
  { isFinalTurnForPlayerOfSimulation :=
      (decide (levelNumber = levels) && decide (decimalTurns < slot))
        || (decide (levelNumber = levels + 1) && decide (slot ≤ decimalTurns))
    isVeryFinalTurnOfSimulation :=
      (decide (decimalTurns = 0) && decide (levelNumber = levels)
          && decide (slot = numberOfPlayers))
        || (decide (levelNumber = levels + 1) && decide (slot = decimalTurns)) }

/-- What a ply does with its flags (`sim.cpp` lines 342-371): player
consideration is added when the ply is the player's final turn and the player
is not an ignored opponent; shared consideration is additionally added when the
ply is also the very final one; the move is committed with maintain-board flag
equal to the negated very-final flag. -/
structure PlyEffects where
  addsPlayerConsideration : Bool
  addsSharedConsideration : Bool
  maintainBoard : Bool
  deriving Repr, DecidableEq

/-- The residual/commit behaviour of one ply as a function of its flags
(`sim.cpp` lines 342-371). -/
def plyEffects (f : PlyFlags) (ignoreOppos isOpponent : Bool) : PlyEffects :=
  let considers := f.isFinalTurnForPlayerOfSimulation && !(ignoreOppos && isOpponent)
  { addsPlayerConsideration := considers
    addsSharedConsideration := considers && f.isVeryFinalTurnOfSimulation
    maintainBoard := !f.isVeryFinalTurnOfSimulation }

/-- The per-ply move choice (`sim.cpp` lines 304-311): the candidate on the
start player's level-1 turn, a pass for opponents under `ignoreOppos`,
otherwise the static best move. -/
def chooseSimMove (levelNumber : ℕ) (playerId startPlayerId : ℤ) (ignoreOppos : Bool)
    (candidate passMove staticBest : Move) : Move :=
  if playerId = startPlayerId ∧ levelNumber = 1 then candidate
  else if ignoreOppos = true ∧ playerId ≠ startPlayerId then passMove
  else staticBest

/-- C++ `(int)` conversion applied to a double: truncation toward zero.
For `q < 0` this is `-⌊-q⌋` (the ceiling), not the floor. -/
def cppTrunc (q : ℚ) : ℤ :=
  if q < 0 then -⌊-q⌋ else ⌊q⌋

/-- The inputs of the end-of-rollout win computation
(`sim.cpp` lines 382-397). -/
structure TerminalInputs where
  gameOver : Bool
  spread : ℤ
  residual : ℚ
  currentIsStart : Bool
  bagSize : ℕ
  rackSize : ℕ
  deriving Repr, DecidableEq

/-- The end-of-rollout message fields `(wins, bogowin)` exactly as
`src/sim.cpp` lines 385-397 compute them, with the strategy table `bw`
abstract.  The C++ `(int)` casts are `cppTrunc`. -/
def winsMessage (bw : ℤ → ℕ → ℕ → ℚ) (t : TerminalInputs) : ℚ × Bool :=
  if t.gameOver then
    (if 0 < t.spread then 1 else if t.spread = 0 then 1 / 2 else 0, false)
  else
    (if t.currentIsStart then
        bw (cppTrunc ((t.spread : ℚ) + t.residual)) (t.bagSize + t.rackSize) 0
      else
        1 - bw (cppTrunc (-(t.spread : ℚ) - t.residual)) (t.bagSize + t.rackSize) 0,
      true)

/-- The end-of-rollout message fields as claim C4 words them: identical to
`winsMessage` except that the strategy-table argument is the floor of
`spread + residual` (resp. `−spread − residual`) rather than the C++
truncation toward zero. -/
def winsMessageClaimFloor (bw : ℤ → ℕ → ℕ → ℚ) (t : TerminalInputs) : ℚ × Bool :=
  if t.gameOver then
    (if 0 < t.spread then 1 else if t.spread = 0 then 1 / 2 else 0, false)
  else
    (if t.currentIsStart then
        bw ⌊(t.spread : ℚ) + t.residual⌋ (t.bagSize + t.rackSize) 0
      else
        1 - bw ⌊-(t.spread : ℚ) - t.residual⌋ (t.bagSize + t.rackSize) 0,
      true)

/-- The outer loop of `Simulator::simulate(plies, iterations)`
(`sim.cpp` lines 217-225), with the single-iteration rollout abstracted as
`step` and the dispatch's `shouldAbort` answers as the oracle `abort`, indexed
by poll number.  The first argument is the index of the next loop entry, the
second the number of loop entries still to run.  The result pairs the final
state with the number of times `shouldAbort` was polled; when no dispatch is
set (`dispatch = false`) the `&&` short-circuits and nothing is polled. -/
def simLoop {σ : Type} (dispatch : Bool) (abort : ℕ → Bool) (step : σ → σ) :
    ℕ → ℕ → σ → σ × ℕ
  | _, 0, s => (s, 0)
  | i, n + 1, s =>
    if dispatch then
      if abort i then (s, 1)
      else
        let r := simLoop dispatch abort step (i + 1) n (step s)
        (r.1, r.2 + 1)
    else
      let r := simLoop dispatch abort step (i + 1) n (step s)
      (r.1, r.2)

/-- Externally visible actions of the log stream, for `setLogfile` and
`closeLogfile` (`sim.cpp` lines 63-127). -/
inductive LogEvent where
  | wroteFooter : LogEvent
  | closedStream : LogEvent
  | openedStream (path : String) (append : Bool) : LogEvent
  | reportedOpenFailure (path : String) : LogEvent
  deriving Repr, DecidableEq

/-- The simulator's log-related state: the configured file name, whether the
stream is open, whether a header frame is open, the current indentation depth,
and the trace of stream actions performed so far. -/
structure LogState where
  logfile : String
  logfileIsOpen : Bool
  hasHeader : Bool
  xmlIndent : ℕ
  events : List LogEvent
  deriving Repr, DecidableEq

/-- Modelled from the spec: `isLogging()` is true iff the log stream is open
(declared in the header, not in `src/sim.cpp`). -/
def LogState.isLogging (st : LogState) : Bool := st.logfileIsOpen

/-- `Simulator::writeLogFooter` (`sim.cpp` lines 118-127): when logging, reset
the indent, write the closing tag and drop the header flag. -/
def writeLogFooter (st : LogState) : LogState :=
  if st.isLogging then
    { st with xmlIndent := 0, hasHeader := false, events := st.events ++ [LogEvent.wroteFooter] }
  else st

/-- `Simulator::closeLogfile` (`sim.cpp` lines 93-103): when logging, write the
footer if a header is open, then close the stream. -/
def closeLogfile (st : LogState) : LogState :=
  if st.isLogging then
    let st1 := if st.hasHeader then writeLogFooter st else st
    { st1 with logfileIsOpen := false, events := st1.events ++ [LogEvent.closedStream] }
  else st

/-- `Simulator::setLogfile` (`sim.cpp` lines 63-85).  The stream-open outcome
is the external parameter `openSucceeds`; an open failure is reported on the
diagnostic stream and leaves logging disabled. -/
def setLogfile (st : LogState) (logfile : String) (append openSucceeds : Bool) : LogState :=
  if st.logfile = logfile ∧ st.isLogging = true then st
  else
    let st1 := { closeLogfile st with logfile := logfile }
    if logfile = "" then closeLogfile st1
    else
      let st2 :=
        { st1 with
          logfileIsOpen := openSucceeds
          events := st1.events ++ [LogEvent.openedStream logfile append] }
      let st3 :=
        if openSucceeds then st2
        else { st2 with events := st2.events ++ [LogEvent.reportedOpenFailure logfile] }
      { st3 with hasHeader := false }

/-! ### Concrete instances used by the witnesses and counterexamples -/

/-- An `AveragedValue` holding exactly one incorporated value `x`. -/
def avOne (x : ℚ) : AveragedValue := AveragedValue.clear.incorporateValue x

/-- Candidate moves with equities 40, 35, 33 and 20 (keys 1-4). -/
def mvA : Move := ⟨1, 30, 40, 0, false⟩

def mvB : Move := ⟨2, 28, 35, 0, false⟩

def mvC : Move := ⟨3, 25, 33, 0, true⟩

def mvD : Move := ⟨4, 10, 20, 0, false⟩

/-- A move absent from the simmed sets below (key 5). -/
def mvE : Move := ⟨5, 12, 22, 0, false⟩

/-- A simmed move with one incorporated value in every accumulator. -/
def smStats : SimmedMove :=
  { move := mvA
    includeInSimulation := true
    levels := [⟨[⟨avOne 30, avOne 0⟩]⟩]
    residual := avOne 5
    gameSpread := avOne 3
    wins := avOne 1 }

/-- A simulator holding `smStats` after four iterations. -/
def simStats : Simulator := ⟨[smStats], [], 4⟩

/-- A simmed move with a rectangular two-player, two-level grid. -/
def smTwoLevels : SimmedMove :=
  { move := mvA
    includeInSimulation := true
    levels :=
      [⟨[⟨avOne 30, avOne 0⟩, ⟨avOne 20, avOne 0⟩]⟩,
        ⟨[⟨avOne 10, avOne 1⟩, ⟨avOne 16, avOne 0⟩]⟩]
    residual := avOne 5
    gameSpread := avOne 3
    wins := avOne 1 }

/-- A simulator holding the four candidates of the pruning scenario, all
included, before any iteration. -/
def simPrune : Simulator :=
  ⟨[SimmedMove.ofMove mvA, SimmedMove.ofMove mvB, SimmedMove.ofMove mvC,
      SimmedMove.ofMove mvD], [], 0⟩

/-- A simulator holding `smStats` and a fresh simmed move for `mvB`. -/
def simPair : Simulator := ⟨[smStats, SimmedMove.ofMove mvB], [], 2⟩

/-- A strategy table that only distinguishes whether the spread argument is
at most `-2`. -/
def bwExample : ℤ → ℕ → ℕ → ℚ := fun z _ _ => if z ≤ -2 then 0 else 1

/-- Terminal inputs of a rollout that did not reach game over:
`spread = -1`, `residual = -1/2`, current player is the start player. -/
def termExample : TerminalInputs := ⟨false, -1, -(1 / 2 : ℚ), true, 10, 7⟩

/-- A log state whose stream is open on "sim.log" with a written header. -/
def logOpenState : LogState :=
  ⟨"sim.log", true, true, 1, [LogEvent.openedStream "sim.log" false]⟩

/-- An `AveragedValue` that incorporated the values 1, 2 and 3. -/
def avListExample : AveragedValue := AveragedValue.clear.incorporateList [1, 2, 3]

/-! ### Theorems -/

/-- Claim C10: `setLogfile` is idempotent on an already-open log — when the
logfile name equals the requested path and logging is active, the call returns
without closing or reopening the stream and without resetting the header
state, so the simulator's entire log state (including its stream-action trace)
is unchanged. -/
theorem setLogfile_idempotent (st : LogState) (path : String) (append openSucceeds : Bool)
    (hname : st.logfile = path) (hopen : st.isLogging = true) :
    setLogfile st path append openSucceeds = st := by
  unfold setLogfile
  rw [if_pos ⟨hname, hopen⟩]

theorem setLogfile_idempotent_witness :
    logOpenState.logfile = "sim.log" ∧ logOpenState.isLogging = true ∧
      setLogfile logOpenState "sim.log" true false = logOpenState :=
  ⟨rfl, rfl, setLogfile_idempotent logOpenState "sim.log" true false rfl rfl⟩

/-- Claim C5: the per-ply move choice is the candidate when the level number
is 1 and the current player is the start player; otherwise a pass when
`ignoreOppos` is set and the player is not the start player; otherwise the
rules engine's static best move. -/
theorem chooseSimMove_spec (levelNumber : ℕ) (playerId startPlayerId : ℤ)
    (ignoreOppos : Bool) (candidate passMove staticBest : Move) :
    (levelNumber = 1 ∧ playerId = startPlayerId →
      chooseSimMove levelNumber playerId startPlayerId ignoreOppos candidate passMove
        staticBest = candidate) ∧
    (¬(levelNumber = 1 ∧ playerId = startPlayerId) →
      ignoreOppos = true ∧ playerId ≠ startPlayerId →
      chooseSimMove levelNumber playerId startPlayerId ignoreOppos candidate passMove
        staticBest = passMove) ∧
    (¬(levelNumber = 1 ∧ playerId = startPlayerId) →
      ¬(ignoreOppos = true ∧ playerId ≠ startPlayerId) →
      chooseSimMove levelNumber playerId startPlayerId ignoreOppos candidate passMove
        staticBest = staticBest) := by
  unfold chooseSimMove
  refine ⟨?_, ?_, ?_⟩
  · rintro ⟨h1, h2⟩
    rw [if_pos ⟨h2, h1⟩]
  · intro hn hp
    rw [if_neg fun hc => hn ⟨hc.2, hc.1⟩, if_pos hp]
  · intro hn1 hn2
    rw [if_neg fun hc => hn1 ⟨hc.2, hc.1⟩, if_neg hn2]

theorem chooseSimMove_spec_witness :
    (1 = 1 ∧ (7 : ℤ) = 7) ∧
      chooseSimMove 1 7 7 false mvA mvB mvC = mvA :=
  ⟨⟨rfl, rfl⟩, (chooseSimMove_spec 1 7 7 false mvA mvB mvC).1 ⟨rfl, rfl⟩⟩

/-- Claim C1 (code bug): take `numberOfPlayers = 2` and requested `plies = 0`,
so the depth decomposes as `decimal = 1`, `levels = 0`, and look at the
candidate's own ply — level number 1, 1-indexed player slot 1.  By the claim
this ply is the player's final turn (`levelNumber = levels + 1` and
`slot ≤ decimal`) and the very final ply (`slot = decimal`), so player and
shared consideration are added and the move is committed with maintain-board
false.  The source however initialises `playerNumber = 1` and increments it at
the top of the slot loop body, before the flag computations (line 295), so it
compares `playerNumber = slot + 1 = 2` and computes both flags false: no
consideration is added and the board is maintained.  This contradicts the
source's own comment that "level one's first move is the zeroth ply". -/
theorem plyFlags_divergence :
    decimalTurnsOf 0 2 = 1 ∧ levelsCountOf 0 2 = 0 ∧
    plyFlagsCode 0 1 2 1 1 = ⟨false, false⟩ ∧
    plyFlagsClaim 0 1 2 1 1 = ⟨true, true⟩ ∧
    plyEffects (plyFlagsCode 0 1 2 1 1) false false = ⟨false, false, true⟩ ∧
    plyEffects (plyFlagsClaim 0 1 2 1 1) false false = ⟨true, true, false⟩ := by
  decide

/-- Claim C2 (code bug): `SimmedMove::clear` — called for every simmed move by
`resetNumbers` — resets only the `levels` grid, leaving the `residual`,
`gameSpread` and `wins` accumulators with their incorporated values (the
file's own `AveragedValue::clear` is never called).  Evaluated on a simulator
holding one simmed move with one incorporated value in each accumulator:
after `resetNumbers` the iteration counter is 0 and the grid is empty, but all
three `AveragedValue` accumulators still hold one value each. -/
theorem resetNumbers_keeps_accumulators :
    simStats.resetNumbers.iterations = 0 ∧
    (simStats.resetNumbers.simmedMoves.getD 0 default).levels = [] ∧
    (simStats.resetNumbers.simmedMoves.getD 0 default).residual.incorporatedValues = 1 ∧
    (simStats.resetNumbers.simmedMoves.getD 0 default).gameSpread.incorporatedValues = 1 ∧
    (simStats.resetNumbers.simmedMoves.getD 0 default).wins.incorporatedValues = 1 := by
  decide

/-- Claim C4, counterexample to the claim as stated: the source converts the
strategy-table spread argument with a C `(int)` cast, which truncates toward
zero, not with the floor the claim names.  With `spread = -1` and
`residual = -1/2` (game not over, current player is the start player) the code
looks up `bw(-1)` while the claim's floor form looks up `bw(-2)`: on a table
distinguishing the two, the computed message differs from the claimed one. -/
theorem winsMessage_floor_counterexample :
    winsMessage bwExample termExample ≠ winsMessageClaimFloor bwExample termExample := by
  have h1 : winsMessage bwExample termExample = (1, true) := by
    norm_num [winsMessage, bwExample, termExample, cppTrunc]
  have h2 : winsMessageClaimFloor bwExample termExample = (0, true) := by
    norm_num [winsMessageClaimFloor, bwExample, termExample]
  rw [h1, h2]
  intro h
  exact one_ne_zero (congrArg Prod.fst h)

/-- Claim C4 as amended: at the end of a rollout, if the simulated game is
over the message has `bogowin = false` and wins 1, 1/2 or 0 by the sign of the
spread; if it is not over, `bogowin = true` and wins is the strategy-table
lookup at the truncation toward zero (not the floor) of `spread + residual`
when the current player is the start player, and one minus the lookup at the
truncation of `-spread - residual` otherwise; `bogowin = false` iff the
rollout reached game over. -/
theorem winsMessage_spec (bw : ℤ → ℕ → ℕ → ℚ) (t : TerminalInputs) :
    ((winsMessage bw t).2 = false ↔ t.gameOver = true) ∧
    (t.gameOver = true → (winsMessage bw t).1 =
      if 0 < t.spread then 1 else if t.spread = 0 then 1 / 2 else 0) ∧
    (t.gameOver = false → t.currentIsStart = true → (winsMessage bw t).1 =
      bw (cppTrunc ((t.spread : ℚ) + t.residual)) (t.bagSize + t.rackSize) 0) ∧
    (t.gameOver = false → t.currentIsStart = false → (winsMessage bw t).1 =
      1 - bw (cppTrunc (-(t.spread : ℚ) - t.residual)) (t.bagSize + t.rackSize) 0) := by
  unfold winsMessage
  cases hg : t.gameOver <;> cases hs : t.currentIsStart <;> simp [hg, hs]

theorem winsMessage_spec_witness :
    termExample.gameOver = false ∧ termExample.currentIsStart = true ∧
      (winsMessage bwExample termExample).1 =
        bwExample (cppTrunc ((termExample.spread : ℚ) + termExample.residual))
          (termExample.bagSize + termExample.rackSize) 0 :=
  ⟨rfl, rfl, (winsMessage_spec bwExample termExample).2.2.1 rfl rfl⟩

lemma averagedValue_default : (default : PositionStatistics).score.averagedValue = 0 := rfl

lemma scoreSignedSum_false (l : List PositionStatistics) :
    scoreSignedSum false l = -((l.map fun ps => ps.score.averagedValue).sum) := by
  induction l with
  | nil => simp [scoreSignedSum]
  | cons p t ih =>
    simp [scoreSignedSum, ih]
    ring

lemma scoreSignedSum_true (l : List PositionStatistics) :
    scoreSignedSum true l =
      l.headI.score.averagedValue - ((l.tail.map fun ps => ps.score.averagedValue).sum) := by
  cases l with
  | nil => simp [scoreSignedSum, List.headI, averagedValue_default]
  | cons p t =>
    simp [scoreSignedSum, List.headI, scoreSignedSum_false]
    ring

lemma foldl_add_sum (f : Level → ℚ) (levels : List Level) (a : ℚ) :
    levels.foldl (fun acc lv => acc + f lv) a = a + (levels.map f).sum := by
  induction levels generalizing a with
  | nil => simp
  | cons lv t ih =>
    simp only [List.foldl_cons, List.map_cons, List.sum_cons, ih]
    ring

/-- Claim C3: `calculateEquity` returns the move's own pre-computed static
equity when the levels grid is empty; otherwise it returns, summed over every
level, the first slot's averaged score minus the averaged scores of all other
slots, plus the averaged residual; in particular, for a rectangular two-player
grid it is the sum over levels of slot 0's average minus slot 1's average,
plus the averaged residual. -/
theorem calculateEquity_spec (sm : SimmedMove) :
    (sm.levels = [] → sm.calculateEquity = sm.move.equity) ∧
    (sm.levels ≠ [] → sm.calculateEquity =
      (sm.levels.map fun lv =>
        lv.statistics.headI.score.averagedValue
          - ((lv.statistics.tail.map fun ps => ps.score.averagedValue).sum)).sum
        + sm.residual.averagedValue) ∧
    ((∀ lv ∈ sm.levels, lv.statistics.length = 2) → sm.levels ≠ [] →
      sm.calculateEquity =
        (sm.levels.map fun lv =>
          (lv.statistics.getD 0 default).score.averagedValue
            - (lv.statistics.getD 1 default).score.averagedValue).sum
          + sm.residual.averagedValue) := by
  have hbody : sm.levels ≠ [] → sm.calculateEquity =
      (sm.levels.map fun lv =>
        lv.statistics.headI.score.averagedValue
          - ((lv.statistics.tail.map fun ps => ps.score.averagedValue).sum)).sum
        + sm.residual.averagedValue := by
    intro hne
    unfold SimmedMove.calculateEquity
    rw [if_neg (by simpa using hne), foldl_add_sum, zero_add]
    congr 1
    exact congrArg List.sum
      (List.map_congr_left fun (lv : Level) _ => scoreSignedSum_true lv.statistics)
  refine ⟨?_, hbody, ?_⟩
  · intro he
    unfold SimmedMove.calculateEquity
    rw [if_pos (by simpa using he)]
  · intro hrect hne
    rw [hbody hne]
    congr 1
    refine congrArg List.sum (List.map_congr_left fun (lv : Level) hlv => ?_)
    have hlen := hrect lv hlv
    rcases hl : lv.statistics with _ | ⟨p0, t0⟩
    · rw [hl] at hlen
      simp at hlen
    · rcases t0 with _ | ⟨p1, t1⟩
      · rw [hl] at hlen
        simp at hlen
      · rcases t1 with _ | ⟨p2, t2⟩
        · simp
        · rw [hl] at hlen
          simp at hlen

theorem calculateEquity_spec_witness :
    (∀ lv ∈ smTwoLevels.levels, lv.statistics.length = 2) ∧ smTwoLevels.levels ≠ [] ∧
      smTwoLevels.calculateEquity =
        (smTwoLevels.levels.map fun lv =>
          (lv.statistics.getD 0 default).score.averagedValue
            - (lv.statistics.getD 1 default).score.averagedValue).sum
          + smTwoLevels.residual.averagedValue :=
  ⟨by decide, by decide,
    (calculateEquity_spec smTwoLevels).2.2 (by decide) (by decide)⟩

lemma incorporateList_fields (l : List ℚ) (a : AveragedValue) :
    (a.incorporateList l).valueSum = a.valueSum + l.sum ∧
    (a.incorporateList l).squaredValueSum
      = a.squaredValueSum + (l.map fun x => x * x).sum ∧
    (a.incorporateList l).incorporatedValues = a.incorporatedValues + l.length := by
  induction l generalizing a with
  | nil => simp [AveragedValue.incorporateList]
  | cons x t ih =>
    obtain ⟨h1, h2, h3⟩ := ih (a.incorporateValue x)
    simp only [AveragedValue.incorporateList, List.foldl_cons] at h1 h2 h3 ⊢
    simp only [AveragedValue.incorporateValue] at h1 h2 h3 ⊢
    rw [h1, h2, h3]
    refine ⟨by simp; ring, by simp; ring, by simp; omega⟩

lemma two_mul_sum_le (x : ℚ) (l : List ℚ) :
    2 * x * l.sum ≤ l.length * (x * x) + (l.map fun y => y * y).sum := by
  induction l with
  | nil => simp
  | cons y t ih =>
    simp only [List.sum_cons, List.map_cons, List.length_cons]
    push_cast
    nlinarith [sq_nonneg (x - y), ih]

lemma sq_sum_le_length_mul_sq (l : List ℚ) :
    l.sum * l.sum ≤ l.length * (l.map fun y => y * y).sum := by
  induction l with
  | nil => simp
  | cons y t ih =>
    simp only [List.sum_cons, List.map_cons, List.length_cons]
    push_cast
    nlinarith [two_mul_sum_le y t, ih]

/-- For any accumulator state actually produced by incorporating values, the
radicand of `standardDeviation` has a nonnegative numerator (Cauchy-Schwarz). -/
lemma numerator_nonneg (l : List ℚ) :
    (AveragedValue.clear.incorporateList l).valueSum
        * (AveragedValue.clear.incorporateList l).valueSum
      ≤ ((AveragedValue.clear.incorporateList l).incorporatedValues : ℚ)
        * (AveragedValue.clear.incorporateList l).squaredValueSum := by
  obtain ⟨h1, h2, h3⟩ := incorporateList_fields l AveragedValue.clear
  rw [h1, h2, h3]
  simpa [AveragedValue.clear] using sq_sum_le_length_mul_sq l

/-- Claim C8: for an `AveragedValue` built from incorporated values with count
`n`, value sum `S` and squared sum `Q`, `standardDeviation` returns 0 when
`n ≤ 1` and `sqrt((n·Q − S²)/(n·(n−1)))` when `n > 1`; equivalently, for
`n > 1`, `standardDeviation² · n · (n−1) = n·Q − S²`. -/
theorem standardDeviation_spec (a : AveragedValue) (l : List ℚ)
    (hl : a = AveragedValue.clear.incorporateList l) :
    (a.incorporatedValues ≤ 1 → a.standardDeviation = 0) ∧
    (1 < a.incorporatedValues →
      a.standardDeviation =
        Real.sqrt (((a.incorporatedValues : ℝ) * (a.squaredValueSum : ℝ)
            - (a.valueSum : ℝ) * (a.valueSum : ℝ))
          / ((a.incorporatedValues : ℝ) * ((a.incorporatedValues : ℝ) - 1)))) ∧
    (1 < a.incorporatedValues →
      a.standardDeviation ^ 2
          * ((a.incorporatedValues : ℝ) * ((a.incorporatedValues : ℝ) - 1))
        = (a.incorporatedValues : ℝ) * (a.squaredValueSum : ℝ)
            - (a.valueSum : ℝ) * (a.valueSum : ℝ)) := by
  refine ⟨?_, ?_, ?_⟩
  · intro h
    unfold AveragedValue.standardDeviation
    rw [if_pos h]
  · intro h
    unfold AveragedValue.standardDeviation
    rw [if_neg (by omega)]
  · intro h
    have hnum : (0 : ℝ) ≤ (a.incorporatedValues : ℝ) * (a.squaredValueSum : ℝ)
        - (a.valueSum : ℝ) * (a.valueSum : ℝ) := by
      have hq : a.valueSum * a.valueSum
          ≤ (a.incorporatedValues : ℚ) * a.squaredValueSum := by
        rw [hl]
        exact numerator_nonneg l
      have := (Rat.cast_le (K := ℝ)).mpr hq
      push_cast at this
      linarith
    have hden : (0 : ℝ) < (a.incorporatedValues : ℝ) * ((a.incorporatedValues : ℝ) - 1) := by
      have h2 : (2 : ℝ) ≤ (a.incorporatedValues : ℝ) := by exact_mod_cast h
      nlinarith
    unfold AveragedValue.standardDeviation
    rw [if_neg (by omega)]
    rw [Real.sq_sqrt (div_nonneg hnum (le_of_lt hden))]
    field_simp

theorem standardDeviation_spec_witness :
    1 < avListExample.incorporatedValues ∧
      avListExample.standardDeviation ^ 2
          * ((avListExample.incorporatedValues : ℝ)
            * ((avListExample.incorporatedValues : ℝ) - 1))
        = (avListExample.incorporatedValues : ℝ) * (avListExample.squaredValueSum : ℝ)
            - (avListExample.valueSum : ℝ) * (avListExample.valueSum : ℝ) :=
  ⟨by decide, (standardDeviation_spec avListExample [1, 2, 3] rfl).2.2 (by decide)⟩

lemma simLoop_no_dispatch {σ : Type} (abort : ℕ → Bool) (step : σ → σ) :
    ∀ (n i : ℕ) (s : σ), simLoop false abort step i n s = (step^[n] s, 0) := by
  intro n
  induction n with
  | zero => intro i s; rfl
  | succ m ih =>
    intro i s
    simp only [simLoop, Bool.false_eq_true, if_false, ih, Function.iterate_succ_apply]

lemma simLoop_no_abort {σ : Type} (abort : ℕ → Bool) (step : σ → σ) :
    ∀ (n i : ℕ) (s : σ), (∀ j, i ≤ j → j < i + n → abort j = false) →
      simLoop true abort step i n s = (step^[n] s, n) := by
  intro n
  induction n with
  | zero => intro i s _; rfl
  | succ m ih =>
    intro i s h
    have hi : abort i = false := h i le_rfl (by omega)
    simp only [simLoop, if_true, hi, Bool.false_eq_true, if_false]
    rw [ih (i + 1) (step s) fun j h1 h2 => h j (by omega) (by omega)]
    simp [Function.iterate_succ_apply]

lemma simLoop_abort_at {σ : Type} (abort : ℕ → Bool) (step : σ → σ) :
    ∀ (k n i : ℕ) (s : σ), k < n → (∀ j, i ≤ j → j < i + k → abort j = false) →
      abort (i + k) = true →
      simLoop true abort step i n s = (step^[k] s, k + 1) := by
  intro k
  induction k with
  | zero =>
    intro n i s hk _ hab
    obtain ⟨m, rfl⟩ : ∃ m, n = m + 1 := ⟨n - 1, by omega⟩
    simp only [simLoop, if_true]
    rw [Nat.add_zero] at hab
    rw [if_pos hab]
    rfl
  | succ k ih =>
    intro n i s hk hbef hab
    obtain ⟨m, rfl⟩ : ∃ m, n = m + 1 := ⟨n - 1, by omega⟩
    have hi : abort i = false := hbef i le_rfl (by omega)
    simp only [simLoop, if_true, hi, Bool.false_eq_true, if_false]
    rw [ih m (i + 1) (step s) (by omega)
      (fun j h1 h2 => hbef j (by omega) (by omega))
      (by rw [show i + 1 + k = i + (k + 1) by omega]; exact hab)]
    simp [Function.iterate_succ_apply]

/-- Claim C9: in `simulate(plies, iterations)` the abort dispatch, when set,
is polled exactly once before each loop entry and never inside a rollout (the
rollout `step` has no access to the oracle); when `shouldAbort` first answers
true at entry `k`, the loop stops with exactly the `k` completed rollouts
applied to the state — all accumulated statistics preserved, no further
iteration — and `k + 1` polls; with no abort it runs all iterations with one
poll each, and with no dispatch nothing is ever polled. -/
theorem simulate_abort_spec {σ : Type} (dispatch : Bool) (abort : ℕ → Bool)
    (step : σ → σ) (iterations : ℕ) (s : σ) :
    (dispatch = false →
      simLoop dispatch abort step 0 iterations s = (step^[iterations] s, 0)) ∧
    (dispatch = true → (∀ j, j < iterations → abort j = false) →
      simLoop dispatch abort step 0 iterations s = (step^[iterations] s, iterations)) ∧
    (dispatch = true → ∀ k, k < iterations → (∀ j, j < k → abort j = false) →
      abort k = true →
      simLoop dispatch abort step 0 iterations s = (step^[k] s, k + 1)) := by
  refine ⟨?_, ?_, ?_⟩
  · rintro rfl
    exact simLoop_no_dispatch abort step iterations 0 s
  · rintro rfl h
    exact simLoop_no_abort abort step iterations 0 s fun j _ h2 => h j (by omega)
  · rintro rfl k hk hbef hab
    exact simLoop_abort_at abort step k iterations 0 s hk
      (fun j _ h2 => hbef j (by omega)) (by simpa using hab)

lemma markFirstInclude_not_found (m : Move) (l : List SimmedMove)
    (h : ∀ sm ∈ l, ¬ m.key = sm.move.key) :
    markFirstInclude m l = (l, false) := by
  induction l with
  | nil => rfl
  | cons sm t ih =>
    simp only [markFirstInclude]
    rw [if_neg (h sm (List.mem_cons_self sm t)),
      ih fun x hx => h x (List.mem_cons_of_mem sm hx)]

lemma markFirstInclude_append_found (m : Move) (A B : List SimmedMove)
    (h : ∃ sm ∈ A, m.key = sm.move.key) :
    markFirstInclude m (A ++ B) = ((markFirstInclude m A).1 ++ B, true) := by
  induction A with
  | nil => simp at h
  | cons sm t ih =>
    rw [List.cons_append]
    by_cases hk : m.key = sm.move.key
    · simp only [markFirstInclude, if_pos hk]
      rfl
    · obtain ⟨x, hx, hxk⟩ := h
      rcases List.mem_cons.mp hx with rfl | hx2
      · exact absurd hxk hk
      · simp only [markFirstInclude, if_neg hk, ih ⟨x, hx2, hxk⟩, List.cons_append]

lemma markKeyIncluded_cons (k : ℕ) (sm : SimmedMove) (t : List SimmedMove) :
    markKeyIncluded k (sm :: t)
      = (if sm.move.key = k then { sm with includeInSimulation := true } else sm)
        :: markKeyIncluded k t := rfl

lemma markKeyIncluded_id (k : ℕ) (l : List SimmedMove)
    (h : ∀ sm ∈ l, ¬ sm.move.key = k) :
    markKeyIncluded k l = l := by
  induction l with
  | nil => rfl
  | cons sm t ih =>
    rw [markKeyIncluded_cons, if_neg (h sm (List.mem_cons_self sm t)),
      ih fun x hx => h x (List.mem_cons_of_mem sm hx)]

lemma markFirstInclude_eq_markKeyIncluded (m : Move) (l : List SimmedMove)
    (hnd : (l.map fun sm => sm.move.key).Nodup)
    (h : ∃ sm ∈ l, m.key = sm.move.key) :
    markFirstInclude m l = (markKeyIncluded m.key l, true) := by
  induction l with
  | nil => simp at h
  | cons sm t ih =>
    simp only [List.map_cons, List.nodup_cons] at hnd
    by_cases hk : m.key = sm.move.key
    · have ht : markKeyIncluded m.key t = t := by
        refine markKeyIncluded_id m.key t fun x hx hc => hnd.1 ?_
        have hmem : x.move.key ∈ t.map fun sm => sm.move.key :=
          List.mem_map_of_mem _ hx
        rwa [hc, hk] at hmem
      rw [markKeyIncluded_cons, if_pos hk.symm, ht]
      simp only [markFirstInclude, if_pos hk]
    · obtain ⟨x, hx, hxk⟩ := h
      rcases List.mem_cons.mp hx with rfl | hx2
      · exact absurd hxk hk
      · rw [markKeyIncluded_cons, if_neg fun hc : sm.move.key = m.key => hk hc.symm]
        simp only [markFirstInclude, if_neg hk, ih hnd.2 ⟨x, hx2, hxk⟩]

lemma keys_map_reInclude (done : List Move) (old : List SimmedMove) :
    (old.map (reInclude done)).map (fun sm => sm.move.key)
      = old.map fun sm => sm.move.key := by
  rw [List.map_map]
  rfl

lemma reInclude_append_match (done : List Move) (m : Move) (sm : SimmedMove)
    (h : sm.move.key = m.key) :
    reInclude (done ++ [m]) sm = { sm with includeInSimulation := true } := by
  simp [reInclude, List.any_append, h]

lemma reInclude_append_nomatch (done : List Move) (m : Move) (sm : SimmedMove)
    (h : ¬ sm.move.key = m.key) :
    reInclude (done ++ [m]) sm = reInclude done sm := by
  simp only [reInclude, List.any_append, List.any_cons, List.any_nil, Bool.or_false]
  have hb : (m.key == sm.move.key) = false := by
    simp only [beq_eq_false_iff_ne, ne_eq]
    exact fun hc => h hc.symm
  rw [hb, Bool.or_false]

lemma markKeyIncluded_map_reInclude (done : List Move) (m : Move)
    (old : List SimmedMove) :
    markKeyIncluded m.key (old.map (reInclude done))
      = old.map (reInclude (done ++ [m])) := by
  unfold markKeyIncluded
  rw [List.map_map]
  refine List.map_congr_left fun sm _ => ?_
  simp only [Function.comp_apply]
  by_cases h : sm.move.key = m.key
  · rw [if_pos (show (reInclude done sm).move.key = m.key from h),
      reInclude_append_match done m sm h]
    rfl
  · rw [if_neg (show ¬ (reInclude done sm).move.key = m.key from h),
      reInclude_append_nomatch done m sm h]

lemma includeStep_characterization (old : List SimmedMove) (done : List Move) (m : Move)
    (holdnd : (old.map fun sm => sm.move.key).Nodup)
    (hmdone : m.key ∉ done.map Move.key) :
    includeStep
        (old.map (reInclude done) ++ (done.filter (noMatchIn old)).map SimmedMove.ofMove) m
      = old.map (reInclude (done ++ [m]))
        ++ ((done ++ [m]).filter (noMatchIn old)).map SimmedMove.ofMove := by
  by_cases hmatch : ∃ sm ∈ old, m.key = sm.move.key
  · have hA : ∃ sm ∈ old.map (reInclude done), m.key = sm.move.key := by
      obtain ⟨x, hx, hxk⟩ := hmatch
      exact ⟨reInclude done x, List.mem_map_of_mem (reInclude done) hx, hxk⟩
    have hnomatch : noMatchIn old m = false := by
      obtain ⟨x, hx, hxk⟩ := hmatch
      simp only [noMatchIn, Bool.not_eq_false', List.any_eq_true, beq_iff_eq]
      exact ⟨x, hx, hxk.symm⟩
    unfold includeStep
    rw [markFirstInclude_append_found m _ _ hA,
      markFirstInclude_eq_markKeyIncluded m _ (by rw [keys_map_reInclude]; exact holdnd) hA]
    simp only [if_true]
    rw [markKeyIncluded_map_reInclude done m old]
    rw [List.filter_append, List.filter_cons, hnomatch]
    simp
  · push_neg at hmatch
    have hA : ∀ sm ∈ old.map (reInclude done), ¬ m.key = sm.move.key := by
      intro sm hsm
      obtain ⟨x, hx, rfl⟩ := List.mem_map.mp hsm
      exact hmatch x hx
    have hB : ∀ sm ∈ (done.filter (noMatchIn old)).map SimmedMove.ofMove,
        ¬ m.key = sm.move.key := by
      intro sm hsm
      obtain ⟨x, hx, rfl⟩ := List.mem_map.mp hsm
      have hxdone : x ∈ done := List.mem_of_mem_filter hx
      intro hc
      exact hmdone (by
        rw [hc]
        exact List.mem_map_of_mem Move.key hxdone)
    have hnomatch : noMatchIn old m = true := by
      simp only [noMatchIn, Bool.not_eq_true', List.any_eq_false, beq_iff_eq]
      exact fun x hx hc => hmatch x hx hc.symm
    unfold includeStep
    rw [markFirstInclude_not_found m _ fun sm hsm =>
      (List.mem_append.mp hsm).elim (hA sm) (hB sm)]
    simp only [Bool.false_eq_true, if_false]
    have hmapeq : old.map (reInclude (done ++ [m])) = old.map (reInclude done) :=
      List.map_congr_left fun sm hsm =>
        reInclude_append_nomatch done m sm fun hc => hmatch sm hsm hc.symm
    rw [hmapeq, List.filter_append, List.filter_cons, hnomatch]
    simp

lemma foldl_includeStep (old : List SimmedMove) :
    ∀ (ms done : List Move),
      (old.map fun sm => sm.move.key).Nodup →
      ((done ++ ms).map Move.key).Nodup →
      ms.foldl includeStep
          (old.map (reInclude done) ++ (done.filter (noMatchIn old)).map SimmedMove.ofMove)
        = old.map (reInclude (done ++ ms))
          ++ ((done ++ ms).filter (noMatchIn old)).map SimmedMove.ofMove := by
  intro ms
  induction ms with
  | nil =>
    intro done h1 h2
    simp
  | cons m ms ih =>
    intro done h1 h2
    have hmdone : m.key ∉ done.map Move.key := by
      rw [List.map_append] at h2
      have hd := (List.nodup_append.mp h2).2.2
      intro hmem
      exact hd hmem (by simp)
    rw [List.foldl_cons, includeStep_characterization old done m h1 hmdone]
    have hres := ih (done ++ [m]) h1 (by simpa using h2)
    simpa using hres

/-- The list-level effect of `setIncludedMoves` when the simmed moves and the
input moves have no duplicate keys: every pre-existing simmed move keeps its
place and data with its include flag set to membership in the input, and one
fresh `SimmedMove` per unmatched input move is appended in order. -/
lemma setIncludedMoves_eq (sim : Simulator) (ms : List Move)
    (hold : (sim.simmedMoves.map fun sm => sm.move.key).Nodup)
    (hms : (ms.map Move.key).Nodup) :
    (sim.setIncludedMoves ms).simmedMoves
      = sim.simmedMoves.map (reInclude ms)
        ++ (ms.filter (noMatchIn sim.simmedMoves)).map SimmedMove.ofMove := by
  unfold Simulator.setIncludedMoves
  have h0 : (sim.simmedMoves.map fun sm => { sm with includeInSimulation := false })
      = sim.simmedMoves.map (reInclude []) :=
    List.map_congr_left fun sm _ => by simp [reInclude]
  show List.foldl includeStep _ ms = _
  rw [h0]
  have := foldl_includeStep sim.simmedMoves ms [] hold (by simpa using hms)
  simpa using this

/-- Claim C7: `setIncludedMoves` first marks every existing simmed move
excluded, then marks the match of each input move included or appends a fresh
`SimmedMove` when no match exists — so the resulting list is exactly the old
list with include flags set to input membership, followed by fresh entries for
the unmatched input moves — and every simmed move already present keeps its
`move` and its `levels`, `residual`, `gameSpread` and `wins` accumulators
unchanged. -/
theorem setIncludedMoves_spec (sim : Simulator) (ms : List Move)
    (hold : (sim.simmedMoves.map fun sm => sm.move.key).Nodup)
    (hms : (ms.map Move.key).Nodup) :
    (sim.setIncludedMoves ms).simmedMoves
      = sim.simmedMoves.map (reInclude ms)
        ++ (ms.filter (noMatchIn sim.simmedMoves)).map SimmedMove.ofMove
    ∧ ∀ i, i < sim.simmedMoves.length →
        ((sim.setIncludedMoves ms).simmedMoves.getD i default).move
            = (sim.simmedMoves.getD i default).move
        ∧ ((sim.setIncludedMoves ms).simmedMoves.getD i default).levels
            = (sim.simmedMoves.getD i default).levels
        ∧ ((sim.setIncludedMoves ms).simmedMoves.getD i default).residual
            = (sim.simmedMoves.getD i default).residual
        ∧ ((sim.setIncludedMoves ms).simmedMoves.getD i default).gameSpread
            = (sim.simmedMoves.getD i default).gameSpread
        ∧ ((sim.setIncludedMoves ms).simmedMoves.getD i default).wins
            = (sim.simmedMoves.getD i default).wins := by
  have hmain := setIncludedMoves_eq sim ms hold hms
  refine ⟨hmain, ?_⟩
  intro i hi
  have hlen : i < (sim.simmedMoves.map (reInclude ms)).length := by simpa using hi
  rw [hmain, List.getD_append _ _ _ _ hlen, List.getD_eq_getElem _ _ hlen,
    List.getD_eq_getElem _ _ hi, List.getElem_map]
  exact ⟨rfl, rfl, rfl, rfl, rfl⟩

lemma pruneLoop_eq_take_filter (thr : ℚ) :
    ∀ (n : ℕ) (l : List Move),
      pruneLoop thr n l = (l.take n).filter fun m => decide (thr ≤ m.equity) := by
  intro n
  induction n with
  | zero => intro l; rfl
  | succ k ih =>
    intro l
    cases l with
    | nil => rfl
    | cons m rest =>
      rw [List.take_succ_cons, List.filter_cons]
      by_cases h : thr ≤ m.equity
      · simp [pruneLoop, if_pos h, ih, h]
      · simp [pruneLoop, if_neg h, ih, h]

lemma sorted_cons_head_max (a : Move) (t : List Move)
    (hs : (a :: t).Sorted byEquityRel) :
    ∀ m ∈ a :: t, m.equity ≤ a.equity := by
  intro m hm
  rcases List.mem_cons.mp hm with rfl | hm2
  · exact le_refl m.equity
  · exact List.rel_of_sorted_cons hs m hm2

lemma derivedMove_key (u : Bool) (sm : SimmedMove) :
    (SimmedMove.derivedMove u sm).key = sm.move.key := by
  cases u <;> rfl

lemma moves_true_false (sim : Simulator) :
    sim.moves true false
      = List.insertionSort byEquityRel
          ((sim.simmedMoves.filter fun sm => sm.includeInSimulation).map
            (SimmedMove.derivedMove sim.hasSimulationResults)) := by
  unfold Simulator.moves
  simp only [Bool.false_and, Bool.false_eq_true, if_false]
  congr 2
  exact List.filter_congr fun sm _ => by cases sm.includeInSimulation <;> rfl

/-- Claim C6: given at least one included move, `pruneTo(equityThreshold, maxN)`
sets the included set to exactly those of the first `maxN` currently-included
moves — `moves(true, false)`, which is a permutation of the included moves with
derived valuations, sorted descending by equity, with the best equity at its
head — whose equity is at least the best equity minus `equityThreshold`. -/
theorem pruneTo_spec (sim : Simulator) (equityThreshold : ℚ) (maxN : ℕ)
    (hold : (sim.simmedMoves.map fun sm => sm.move.key).Nodup)
    (hinc : ∃ sm ∈ sim.simmedMoves, sm.includeInSimulation = true) :
    (sim.moves true false).Sorted byEquityRel ∧
    (sim.moves true false).Perm
      ((sim.simmedMoves.filter fun sm => sm.includeInSimulation).map
        (SimmedMove.derivedMove sim.hasSimulationResults)) ∧
    (∀ m ∈ sim.moves true false, m.equity ≤ (sim.moves true false).headI.equity) ∧
    ∀ sm ∈ (sim.pruneTo equityThreshold maxN).simmedMoves,
      (sm.includeInSimulation = true ↔
        sm.move.key ∈ (((sim.moves true false).take maxN).filter fun m =>
          decide ((sim.moves true false).headI.equity - equityThreshold ≤ m.equity)).map
            Move.key) := by
  have hmv := moves_true_false sim
  have hsorted : (sim.moves true false).Sorted byEquityRel := by
    rw [hmv]
    exact List.sorted_insertionSort byEquityRel _
  have hperm : (sim.moves true false).Perm
      ((sim.simmedMoves.filter fun sm => sm.includeInSimulation).map
        (SimmedMove.derivedMove sim.hasSimulationResults)) := by
    rw [hmv]
    exact List.perm_insertionSort byEquityRel _
  have hmax : ∀ m ∈ sim.moves true false,
      m.equity ≤ (sim.moves true false).headI.equity := by
    cases hmv2 : sim.moves true false with
    | nil => intro m hm; simp at hm
    | cons a t =>
      have hs2 : (a :: t).Sorted byEquityRel := hmv2 ▸ hsorted
      intro m hm
      exact sorted_cons_head_max a t hs2 m hm
  refine ⟨hsorted, hperm, hmax, ?_⟩
  have hseleq : pruneLoop ((sim.moves true false).headI.equity - equityThreshold) maxN
        (sim.moves true false)
      = ((sim.moves true false).take maxN).filter fun m =>
          decide ((sim.moves true false).headI.equity - equityThreshold ≤ m.equity) :=
    pruneLoop_eq_take_filter _ maxN _
  set selection := pruneLoop ((sim.moves true false).headI.equity - equityThreshold) maxN
    (sim.moves true false) with hseldef
  have hsel_sub : ∀ m ∈ selection, m ∈ sim.moves true false := by
    intro m hm
    rw [hseleq] at hm
    exact List.take_subset maxN _ (List.mem_of_mem_filter hm)
  have hsel_match : ∀ m ∈ selection, noMatchIn sim.simmedMoves m = false := by
    intro m hm
    have hmem := (hperm.mem_iff).mp (hsel_sub m hm)
    obtain ⟨x, hxf, rfl⟩ := List.mem_map.mp hmem
    have hx : x ∈ sim.simmedMoves := List.mem_of_mem_filter hxf
    simp only [noMatchIn, Bool.not_eq_false', List.any_eq_true, beq_iff_eq]
    exact ⟨x, hx, (derivedMove_key _ x).symm⟩
  have hfilter_nil : selection.filter (noMatchIn sim.simmedMoves) = [] :=
    List.filter_eq_nil_iff.mpr fun m hm => by rw [hsel_match m hm]; exact Bool.false_ne_true
  have hkeys_nodup : (selection.map Move.key).Nodup := by
    have h1 : List.Sublist selection (sim.moves true false) := by
      rw [hseleq]
      exact (List.filter_sublist _).trans (List.take_sublist maxN _)
    have h2 : (((sim.simmedMoves.filter fun sm => sm.includeInSimulation).map
        (SimmedMove.derivedMove sim.hasSimulationResults)).map Move.key).Nodup := by
      rw [List.map_map]
      have heq : (Move.key ∘ SimmedMove.derivedMove sim.hasSimulationResults)
          = fun sm : SimmedMove => sm.move.key := by
        funext sm
        exact derivedMove_key _ sm
      rw [heq]
      exact hold.sublist ((List.filter_sublist _).map _)
    have h3 : (((sim.moves true false)).map Move.key).Nodup :=
      ((hperm.map Move.key).nodup_iff).mpr h2
    exact h3.sublist (h1.map Move.key)
  have hresult : (sim.pruneTo equityThreshold maxN).simmedMoves
      = sim.simmedMoves.map (reInclude selection) := by
    show (sim.setIncludedMoves selection).simmedMoves = _
    rw [setIncludedMoves_eq sim selection hold hkeys_nodup, hfilter_nil]
    simp
  intro sm hsm
  rw [hresult] at hsm
  obtain ⟨x, hx, rfl⟩ := List.mem_map.mp hsm
  show (reInclude selection x).includeInSimulation = true ↔ _
  rw [← hseleq]
  simp only [reInclude, List.any_eq_true, beq_iff_eq, List.mem_map]

theorem pruneTo_spec_witness :
    ((simPrune.simmedMoves.map fun sm => sm.move.key).Nodup ∧
        (∃ sm ∈ simPrune.simmedMoves, sm.includeInSimulation = true)) ∧
      (∀ sm ∈ (simPrune.pruneTo 10 3).simmedMoves,
        (sm.includeInSimulation = true ↔
          sm.move.key ∈ (((simPrune.moves true false).take 3).filter fun m =>
            decide ((simPrune.moves true false).headI.equity - 10 ≤ m.equity)).map
              Move.key)) ∧
      ((simPrune.pruneTo 10 3).simmedMoves.filter fun sm => sm.includeInSimulation).map
          (fun sm => sm.move.key) = [1, 2, 3] :=
  ⟨⟨by decide, by decide⟩,
    (pruneTo_spec simPrune 10 3 (by decide) (by decide)).2.2.2,
    by norm_num [Simulator.pruneTo, Simulator.moves, Simulator.setIncludedMoves, simPrune,
      Simulator.hasSimulationResults, SimmedMove.derivedMove, SimmedMove.ofMove,
      mvA, mvB, mvC, mvD, byEquityRel, pruneLoop, includeStep, markFirstInclude,
      List.insertionSort, List.orderedInsert]⟩

theorem setIncludedMoves_spec_witness :
    ((simPair.simmedMoves.map fun sm => sm.move.key).Nodup ∧
        ([mvB, mvE].map Move.key).Nodup) ∧
      (simPair.setIncludedMoves [mvB, mvE]).simmedMoves
        = simPair.simmedMoves.map (reInclude [mvB, mvE])
          ++ ([mvB, mvE].filter (noMatchIn simPair.simmedMoves)).map SimmedMove.ofMove :=
  ⟨⟨by decide, by decide⟩,
    (setIncludedMoves_spec simPair [mvB, mvE] (by decide) (by decide)).1⟩

theorem simulate_abort_spec_witness :
    (2 < 5 ∧ (∀ j, j < 2 → (fun j => decide (j = 2)) j = false) ∧
        (fun j => decide (j = 2)) 2 = true) ∧
      simLoop true (fun j => decide (j = 2)) (fun n => n + 1) 0 5 0
        = ((fun n => n + 1)^[2] 0, 3) :=
  ⟨⟨by decide, by decide, by decide⟩,
    (simulate_abort_spec true (fun j => decide (j = 2)) (fun n => n + 1) 5 0).2.2 rfl 2
      (by decide) (by decide) (by decide)⟩

end QuackleSim
